import Mathlib

/-!
Verification of the RAGGuard access-control core: condition language,
evaluation engine, multi-backend filter compiler, post-filter fallback,
policy limits and filter cache.

The repository ships only the tests and example programs of the core; the
library package itself (`ragguard.policy`, `ragguard.filters`,
`ragguard.cache`, `ragguard.retrievers`) is not part of the source tree
available here.  Every definition below is therefore a shallow model,
reconstructed from the specification, with the repository's own test
expectations (which are part of the source tree) taken as authoritative
wherever they pin the behaviour down.
-/

namespace RagGuard

/-- Scalar runtime values of the schema-less user/document objects:
null, booleans, integers and strings.  `null` is the explicit Python
`None`. -/
inductive Scalar where
  | null
  | boolean (b : Bool)
  | int (n : Int)
  | str (s : String)
deriving DecidableEq

/-- A field value is a scalar or a flat list of scalars.  Modelled from the
spec: the condition language admits literal scalars and flat list literals
(nested lists are rejected at parse time), and array-valued document
fields. -/
inductive Value where
  | scalar (s : Scalar)
  | list (xs : List Scalar)
deriving DecidableEq

/-- Schema-less user/document objects: ordered key-value maps.  Dotted
paths are pre-split at compile time, so a path is an opaque key here. -/
abbrev Obj := List (String × Value)

/-- Field lookup; a missing path resolves to `none`, the defined sentinel,
never an exception. -/
def lookupField (o : Obj) (p : String) : Option Value :=
  List.lookup p o

/-- Operands of a compiled condition: a `user.<path>` field, a
`document.<path>` field, or a literal. -/
inductive Operand where
  | userField (path : String)
  | docField (path : String)
  | lit (v : Value)
deriving DecidableEq

/-- The comparison operators of the condition language. -/
inductive CmpOp where
  | eq | ne | gt | lt | ge | le
deriving DecidableEq

/-- Compiled boolean expression tree of one condition.  Modelled from the
spec: operators `==`, `!=`, `>`, `<`, `>=`, `<=`, `in`, `not in`,
`exists`, `not exists`, with `AND`/`OR` composition. -/
inductive Cond where
  | cmp (op : CmpOp) (lhs rhs : Operand)
  | isIn (x xs : Operand)
  | notIn (x xs : Operand)
  | fieldExists (o : Operand)
  | fieldAbsent (o : Operand)
  | cand (a b : Cond)
  | cor (a b : Cond)
deriving DecidableEq

/-- Resolve an operand against the user and document objects. -/
def resolveOperand (u d : Obj) : Operand → Option Value
  | .userField p => lookupField u p
  | .docField p => lookupField d p
  | .lit v => some v

/-- Ordering comparisons are defined within one scalar kind (integers with
integer order, strings lexicographically); comparing across kinds or
against non-scalars is `false` — no implicit type coercion. -/
def scalarOrd : CmpOp → Scalar → Scalar → Bool
  | op, .int a, .int b =>
    match op with
    | .gt => decide (b < a)
    | .lt => decide (a < b)
    | .ge => decide (b ≤ a)
    | .le => decide (a ≤ b)
    | _ => false
  | op, .str a, .str b =>
    match op with
    | .gt => decide (b < a)
    | .lt => decide (a < b)
    | .ge => decide (b ≤ a)
    | .le => decide (a ≤ b)
    | _ => false
  | _, _, _ => false

/-- Equality of resolved operands: both must be present and structurally
equal; a missing operand makes `==` false. -/
def eqVals : Option Value → Option Value → Bool
  | some a, some b => a == b
  | _, _ => false

/-- Ordering of resolved operands: defined only between two present
scalars; anything else is false. -/
def ordVals (op : CmpOp) : Option Value → Option Value → Bool
  | some (.scalar a), some (.scalar b) => scalarOrd op a b
  | _, _ => false

/-- Semantics of a comparison operator on resolved operands.  Missing
operands make `==` and the range operators false and `!=` true. -/
def cmpVals : CmpOp → Option Value → Option Value → Bool
  | .eq, ma, mb => eqVals ma mb
  | .ne, ma, mb => !(eqVals ma mb)
  | .gt, ma, mb => ordVals .gt ma mb
  | .lt, ma, mb => ordVals .lt ma mb
  | .ge, ma, mb => ordVals .ge ma mb
  | .le, ma, mb => ordVals .le ma mb

/-- Membership of a resolved operand in a resolved list operand
(literal list or array field), by element-wise equality.  A missing
operand, a non-scalar left operand or a non-list right operand give
`false`; the empty list matches nothing. -/
def memVals : Option Value → Option Value → Bool
  | some (.scalar a), some (.list ys) => ys.contains a
  | _, _ => false

/-- Existence of a resolved operand: present and non-null.  A field bound
to `null` does not exist. -/
def existsVal : Option Value → Bool
  | some v => !(v == Value.scalar .null)
  | none => false

/-- Evaluate one compiled condition for a (user, document) pair.  Modelled
from the spec: the evaluation engine of `ragguard.policy.engine` is not in
the source tree; semantics follow §4.2 of the spec (missing field ⇒
equality/membership false, `!=`/`not exists` true; no coercion). -/
def evalCond (u d : Obj) : Cond → Bool
  | .cmp op l r => cmpVals op (resolveOperand u d l) (resolveOperand u d r)
  | .isIn x xs => memVals (resolveOperand u d x) (resolveOperand u d xs)
  | .notIn x xs => !(memVals (resolveOperand u d x) (resolveOperand u d xs))
  | .fieldExists o => existsVal (resolveOperand u d o)
  | .fieldAbsent o => !(existsVal (resolveOperand u d o))
  | .cand a b => evalCond u d a && evalCond u d b
  | .cor a b => evalCond u d a || evalCond u d b

/-- Allow clause of a rule: `everyone` flag, role list (ANY-match against
the user's roles) and compiled conditions (combined with AND). -/
structure AllowClause where
  everyone : Bool
  roles : List String
  conditions : List Cond
deriving DecidableEq

/-- A named rule: optional `match` gate (document-field equality) and an
allow clause. -/
structure Rule where
  name : String
  matchClause : Option (List (String × Value))
  allow : AllowClause
deriving DecidableEq

/-- Default decision of a policy. -/
inductive Decision where
  | allow | deny
deriving DecidableEq

/-- A policy: version, ordered rules, default decision.  Immutable after
construction. -/
structure Policy where
  version : String
  rules : List Rule
  default : Decision
deriving DecidableEq

/-- The user's roles: the `roles` field of the user object, when it is a
list. -/
def userRoles (u : Obj) : List Scalar :=
  match lookupField u "roles" with
  | some (.list xs) => xs
  | _ => []

/-- ANY-match of the rule's role list against the user's roles. -/
def rolesIntersect (ruleRoles : List String) (u : Obj) : Bool :=
  ruleRoles.any (fun r => (userRoles u).contains (Scalar.str r))

/-- Identity gate of an allow clause.  Modelled from the spec and the
repository's tests: `everyone: true` waives the role requirement, a
non-empty role list requires an intersection with the user's roles, and a
clause with neither restriction passes.  The repository's tests
(`test_not_in_operator.py`, `test_field_existence.py`,
`test_institution_scoped_admin.py`) show that the conditions of the rule
are enforced in addition to this gate, not short-circuited by
`everyone`. -/
def identityOk (a : AllowClause) (u : Obj) : Bool :=
  a.everyone || a.roles.isEmpty || rolesIntersect a.roles u

/-- The `match` gate: every key must equal the corresponding document
field; a missing field skips the rule.  Only document fields are
consulted. -/
def matchGateOk (m : Option (List (String × Value))) (d : Obj) : Bool :=
  match m with
  | none => true
  | some kvs => kvs.all (fun kv => eqVals (lookupField d kv.1) (some kv.2))

/-- One rule allows the pair iff its match gate passes, its identity gate
passes, and all its conditions hold. -/
def ruleAllows (u d : Obj) (r : Rule) : Bool :=
  matchGateOk r.matchClause d && identityOk r.allow u
    && r.allow.conditions.all (evalCond u d)

/-- Walk rules in declaration order; the first allowing rule
short-circuits with `true`; otherwise the default applies. -/
def evalRules (u d : Obj) (dflt : Bool) : List Rule → Bool
  | [] => dflt
  | r :: rs => if ruleAllows u d r then true else evalRules u d dflt rs

/-- The evaluation engine: `evaluate(user, document) -> bool`.  Modelled
from the spec: `PolicyEngine.evaluate` of `ragguard.policy.engine` is not
in the source tree. -/
def Policy.evaluate (p : Policy) (u d : Obj) : Bool :=
  evalRules u d (p.default == Decision.allow) p.rules

/-- The post-filter fallback: keep only authorized candidates, in input
order, up to `limit`.  Modelled from the spec: the fallback of
`ragguard.retrievers` (FAISS and other non-pushdown backends) is not in
the source tree; contract `filter_candidates(policy, user, candidates,
limit) -> authorized subset, length ≤ limit, order preserved`. -/
def filterCandidates (p : Policy) (u : Obj) (candidates : List Obj)
    (limit : Nat) : List Obj :=
  (candidates.filter (fun d => p.evaluate u d)).take limit

/-! ## Intermediate compiled filter

One backend-independent predicate tree over document fields, produced
from the policy and the concrete user context; each backend then renders
it in its native syntax.  Modelled from the spec's design note: one
polymorphic native-filter-builder consuming the same compiled tree. -/

/-- Backend-independent compiled predicate over document fields. -/
inductive NFilter where
  | top
  | bot
  | feq (path : String) (v : Value)
  | fne (path : String) (v : Value)
  | fcmp (op : CmpOp) (path : String) (s : Scalar)
  | anyOf (path : String) (vs : List Scalar)
  | noneOf (path : String) (vs : List Scalar)
  | contains (path : String) (s : Scalar)
  | notContains (path : String) (s : Scalar)
  | present (path : String)
  | absent (path : String)
  | conj (a b : NFilter)
  | disj (a b : NFilter)
deriving DecidableEq

/-- Satisfaction of the intermediate filter by a document, with exactly
the evaluation engine's primitive semantics. -/
def nfSat (d : Obj) : NFilter → Bool
  | .top => true
  | .bot => false
  | .feq p v => eqVals (lookupField d p) (some v)
  | .fne p v => !(eqVals (lookupField d p) (some v))
  | .fcmp op p s => cmpVals op (lookupField d p) (some (Value.scalar s))
  | .anyOf p vs => memVals (lookupField d p) (some (Value.list vs))
  | .noneOf p vs => !(memVals (lookupField d p) (some (Value.list vs)))
  | .contains p s => memVals (some (Value.scalar s)) (lookupField d p)
  | .notContains p s => !(memVals (some (Value.scalar s)) (lookupField d p))
  | .present p => existsVal (lookupField d p)
  | .absent p => !(existsVal (lookupField d p))
  | .conj a b => nfSat d a && nfSat d b
  | .disj a b => nfSat d a || nfSat d b

/-- Compile-time value of an operand: `some mv` when the operand does not
reference the document (user fields are substituted from the concrete
user context; literals are themselves), `none` for document fields. -/
def cvalue (u : Obj) : Operand → Option (Option Value)
  | .userField p => some (lookupField u p)
  | .lit v => some (some v)
  | .docField _ => none

/-- Always-true / always-false intermediate filters. -/
def boolNF : Bool → NFilter
  | true => .top
  | false => .bot

/-- Mirror a comparison operator, for conditions written with the
document field on the right. -/
def flipCmp : CmpOp → CmpOp
  | .eq => .eq
  | .ne => .ne
  | .gt => .lt
  | .lt => .gt
  | .ge => .le
  | .le => .ge

/-- Native predicate for `document.p OP v` where `v` is the compile-time
value of the other operand (`none` when that operand is a missing user
field). -/
def compileCmpRight (op : CmpOp) (p : String) (mv : Option Value) : NFilter :=
  match op, mv with
  | .eq, some v => .feq p v
  | .eq, none => .bot
  | .ne, some v => .fne p v
  | .ne, none => .top
  | o, some (Value.scalar s) => .fcmp o p s
  | _, some (Value.list _) => .bot
  | _, none => .bot

/-- Compile one comparison.  A comparison between two document fields is
not expressible as a native predicate and signals post-filter fallback
(`none`); a comparison not referencing the document folds to a
constant. -/
def compileCmp (u : Obj) (op : CmpOp) : Operand → Operand → Option NFilter
  | .docField _, .docField _ => none
  | .docField p, r =>
    match cvalue u r with
    | some mv => some (compileCmpRight op p mv)
    | none => none
  | l, .docField p =>
    match cvalue u l with
    | some mv => some (compileCmpRight (flipCmp op) p mv)
    | none => none
  | l, r =>
    match cvalue u l, cvalue u r with
    | some mv, some mw => some (boolNF (cmpVals op mv mw))
    | _, _ => none

/-- Negate a boolean for the `not in` / `not exists` polarity. -/
def polarBool (pos b : Bool) : Bool :=
  if pos then b else !b

/-- Native membership of a document field in a compile-time list: the
empty literal list short-circuits to always-false (`in`) or always-true
(`not in`) without a native call. -/
def membNF (pos : Bool) (p : String) (vs : List Scalar) : NFilter :=
  if vs.isEmpty then boolNF (!pos)
  else if pos then .anyOf p vs else .noneOf p vs

/-- Native array-contains (or its negation) for membership in an
array-valued document field. -/
def containsNF (pos : Bool) (p : String) (s : Scalar) : NFilter :=
  if pos then .contains p s else .notContains p s

/-- Compile a membership whose right operand has compile-time value
`mw`. -/
def compileMembKnown (u : Obj) (pos : Bool) (x : Operand) (mw : Option Value) :
    Option NFilter :=
  match mw with
  | some (Value.list ys) =>
    match x with
    | .docField p => some (membNF pos p ys)
    | x =>
      match cvalue u x with
      | some mv => some (boolNF (polarBool pos (memVals mv (some (Value.list ys)))))
      | none => none
  | mw =>
    match x with
    | .docField _ => some (boolNF (!pos))
    | x =>
      match cvalue u x with
      | some mv => some (boolNF (polarBool pos (memVals mv mw)))
      | none => none

/-- Compile `in` (`pos = true`) or `not in` (`pos = false`).  Membership
of one document field in another document field is not expressible
natively. -/
def compileMemb (u : Obj) (pos : Bool) : Operand → Operand → Option NFilter
  | .docField _, .docField _ => none
  | x, .docField q =>
    match cvalue u x with
    | some (some (Value.scalar s)) => some (containsNF pos q s)
    | some _ => some (boolNF (!pos))
    | none => none
  | x, xs =>
    match cvalue u xs with
    | some mw => compileMembKnown u pos x mw
    | none => none

/-- Compile `exists` (`pos = true`) or `not exists` (`pos = false`): the
native "present and non-null" / "absent or null" predicate. -/
def compileExists (u : Obj) (pos : Bool) : Operand → Option NFilter
  | .docField p => some (if pos then .present p else .absent p)
  | o =>
    match cvalue u o with
    | some mv => some (boolNF (polarBool pos (existsVal mv)))
    | none => none

/-- Compile one condition into the intermediate filter, substituting the
concrete user context; `none` signals that the condition requires
post-filter fallback.  Modelled from the spec: the builder of
`ragguard.filters.builder` is not in the source tree. -/
def compileCond (u : Obj) : Cond → Option NFilter
  | .cmp op l r => compileCmp u op l r
  | .isIn x xs => compileMemb u true x xs
  | .notIn x xs => compileMemb u false x xs
  | .fieldExists o => compileExists u true o
  | .fieldAbsent o => compileExists u false o
  | .cand a b =>
    match compileCond u a, compileCond u b with
    | some fa, some fb => some (.conj fa fb)
    | _, _ => none
  | .cor a b =>
    match compileCond u a, compileCond u b with
    | some fa, some fb => some (.disj fa fb)
    | _, _ => none

/-- Native predicate of a `match` gate: conjunction of document-field
equalities. -/
def matchNF : List (String × Value) → NFilter
  | [] => .top
  | kv :: kvs => .conj (.feq kv.1 kv.2) (matchNF kvs)

/-- Compile a rule's conditions, ANDed. -/
def condsNF (u : Obj) : List Cond → Option NFilter
  | [] => some .top
  | c :: cs =>
    match compileCond u c, condsNF u cs with
    | some f, some g => some (.conj f g)
    | _, _ => none

/-- Compile one rule for the concrete user: an identity gate that fails
for this user contributes an always-false disjunct; otherwise the match
gate and the conditions are ANDed. -/
def compileRule (u : Obj) (r : Rule) : Option NFilter :=
  if identityOk r.allow u then
    match condsNF u r.allow.conditions with
    | some g => some (.conj (matchNF (r.matchClause.getD [])) g)
    | none => none
  else some .bot

/-- OR across the compiled rules. -/
def compileRules (u : Obj) : List Rule → Option NFilter
  | [] => some .bot
  | r :: rs =>
    match compileRule u r, compileRules u rs with
    | some f, some g => some (.disj f g)
    | _, _ => none

/-- Compile a whole policy for a concrete user into the intermediate
filter: OR across rules, with a default-allow policy compiling to
match-all.  Pure function of its inputs; consults no document corpus. -/
def compilePolicy (p : Policy) (u : Obj) : Option NFilter :=
  if p.default == Decision.allow then some .top
  else compileRules u p.rules

/-! ## Backend: structured must/should/must_not filter (Qdrant)

Modelled from the spec: `to_qdrant_filter` of `ragguard.filters.builder`
is not in the source tree.  A filter holds three clause lists: `must`
(AND), `should` (OR, vacuous when empty), `must_not` (negated). -/

mutual
/-- One clause of the structured filter. -/
inductive QdrantCondition where
  | matchValue (key : String) (v : Value)
  | matchAny (key : String) (vs : List Scalar)
  | range (key : String) (op : CmpOp) (s : Scalar)
  | arrayContains (key : String) (s : Scalar)
  | isNullOrMissing (key : String)
  | nested (f : QdrantFilter)

/-- A structured filter: must/should/must_not clause lists. -/
inductive QdrantFilter where
  | filter (must should mustNot : List QdrantCondition)
end

mutual
/-- Satisfaction of one clause by a document. -/
def qcondSat (d : Obj) : QdrantCondition → Bool
  | .matchValue key v => eqVals (lookupField d key) (some v)
  | .matchAny key vs => memVals (lookupField d key) (some (Value.list vs))
  | .range key op s => cmpVals op (lookupField d key) (some (Value.scalar s))
  | .arrayContains key s => memVals (some (Value.scalar s)) (lookupField d key)
  | .isNullOrMissing key => !(existsVal (lookupField d key))
  | .nested f => qfilterSat d f

/-- Satisfaction of a structured filter: all `must`, at least one
`should` when any is present, no `must_not`. -/
def qfilterSat (d : Obj) : QdrantFilter → Bool
  | .filter must should mustNot =>
    qlistAll d must && (should.isEmpty || qlistAny d should)
      && !(qlistAny d mustNot)

/-- All clauses in the list are satisfied. -/
def qlistAll (d : Obj) : List QdrantCondition → Bool
  | [] => true
  | c :: cs => qcondSat d c && qlistAll d cs

/-- Some clause in the list is satisfied. -/
def qlistAny (d : Obj) : List QdrantCondition → Bool
  | [] => false
  | c :: cs => qcondSat d c || qlistAny d cs
end

/-- Filter with a single `must` clause. -/
def qMust (c : QdrantCondition) : QdrantFilter := .filter [c] [] []

/-- Filter with a single `must_not` clause. -/
def qMustNot (c : QdrantCondition) : QdrantFilter := .filter [] [] [c]

/-- Render the intermediate filter in the structured must/should/must_not
syntax. -/
def toQdrantNF : NFilter → QdrantFilter
  | .top => .filter [] [] []
  | .bot => .filter [] [] [.nested (.filter [] [] [])]
  | .feq p v => qMust (.matchValue p v)
  | .fne p v => qMustNot (.matchValue p v)
  | .fcmp op p s => qMust (.range p op s)
  | .anyOf p vs => qMust (.matchAny p vs)
  | .noneOf p vs => qMustNot (.matchAny p vs)
  | .contains p s => qMust (.arrayContains p s)
  | .notContains p s => qMustNot (.arrayContains p s)
  | .present p => qMustNot (.isNullOrMissing p)
  | .absent p => qMust (.isNullOrMissing p)
  | .conj a b => .filter [.nested (toQdrantNF a), .nested (toQdrantNF b)] [] []
  | .disj a b => .filter [] [.nested (toQdrantNF a), .nested (toQdrantNF b)] []

/-- Compile a policy to the structured backend filter. -/
def toQdrantFilter (p : Policy) (u : Obj) : Option QdrantFilter :=
  (compilePolicy p u).map toQdrantNF

/-! ## Backend: parameterized SQL WHERE fragment (pgvector)

Modelled from the spec: `to_pgvector_filter` of `ragguard.filters.builder`
is not in the source tree.  The output is a WHERE-clause string plus an
ordered parameter list; every literal travels through the parameter list
(`$1`, `$2`, …), never through the query text. -/

/-- Abstract syntax of the emitted WHERE clause.  Parameterized nodes
carry positions into the parameter list; `cmpLiteral` is the inline-literal
form the renderer could print but the compiler never emits. -/
inductive SqlExpr where
  | strue
  | sfalse
  | cmpParam (col : String) (op : CmpOp) (idx : Nat)
  | cmpLiteral (col : String) (op : CmpOp) (v : Value)
  | inParams (col : String) (start len : Nat)
  | notInParams (col : String) (start len : Nat)
  | anyParam (col : String) (idx : Nat)
  | isNullExpr (col : String)
  | isNotNullExpr (col : String)
  | snot (e : SqlExpr)
  | sand (a b : SqlExpr)
  | sor (a b : SqlExpr)
deriving DecidableEq

/-- Satisfaction of the WHERE clause by a document, given the parameter
list, with the same primitive semantics as the evaluation engine
(three-valued SQL logic collapsed to the spec's contract). -/
def sqlSat (ps : List Value) (d : Obj) : SqlExpr → Bool
  | .strue => true
  | .sfalse => false
  | .cmpParam col op idx =>
    match ps[idx]? with
    | some v => cmpVals op (lookupField d col) (some v)
    | none => false
  | .cmpLiteral col op v => cmpVals op (lookupField d col) (some v)
  | .inParams col start len =>
    match lookupField d col with
    | some (Value.scalar a) => ((ps.drop start).take len).contains (Value.scalar a)
    | _ => false
  | .notInParams col start len =>
    !(match lookupField d col with
      | some (Value.scalar a) => ((ps.drop start).take len).contains (Value.scalar a)
      | _ => false)
  | .anyParam col idx =>
    match ps[idx]? with
    | some (Value.scalar s) => memVals (some (Value.scalar s)) (lookupField d col)
    | _ => false
  | .isNullExpr col => !(existsVal (lookupField d col))
  | .isNotNullExpr col => existsVal (lookupField d col)
  | .snot e => !(sqlSat ps d e)
  | .sand a b => sqlSat ps d a && sqlSat ps d b
  | .sor a b => sqlSat ps d a || sqlSat ps d b

/-- Emit the WHERE clause for the intermediate filter, threading the next
free parameter position; returns the clause and the parameters it
appends. -/
def sqlOfNF : NFilter → Nat → SqlExpr × List Value
  | .top, _ => (.strue, [])
  | .bot, _ => (.sfalse, [])
  | .feq p v, i => (.cmpParam p .eq i, [v])
  | .fne p v, i => (.snot (.cmpParam p .eq i), [v])
  | .fcmp op p s, i => (.cmpParam p op i, [.scalar s])
  | .anyOf p vs, i => (.inParams p i vs.length, vs.map Value.scalar)
  | .noneOf p vs, i => (.notInParams p i vs.length, vs.map Value.scalar)
  | .contains p s, i => (.anyParam p i, [.scalar s])
  | .notContains p s, i => (.snot (.anyParam p i), [.scalar s])
  | .present p, _ => (.isNotNullExpr p, [])
  | .absent p, _ => (.isNullExpr p, [])
  | .conj a b, i =>
    let ra := sqlOfNF a i
    let rb := sqlOfNF b (i + ra.2.length)
    (.sand ra.1 rb.1, ra.2 ++ rb.2)
  | .disj a b, i =>
    let ra := sqlOfNF a i
    let rb := sqlOfNF b (i + ra.2.length)
    (.sor ra.1 rb.1, ra.2 ++ rb.2)

/-- Compile a policy to the SQL backend's abstract output. -/
def toPgvectorExpr (p : Policy) (u : Obj) : Option (SqlExpr × List Value) :=
  (compilePolicy p u).map (fun nf => sqlOfNF nf 0)

/-- Text of a comparison operator. -/
def renderCmpOp : CmpOp → String
  | .eq => "="
  | .ne => "!="
  | .gt => ">"
  | .lt => "<"
  | .ge => ">="
  | .le => "<="

/-- Text of the placeholder for parameter position `i` (1-based `$n`). -/
def placeholder (i : Nat) : String := "$" ++ toString (i + 1)

/-- Comma-separated placeholders for a parameter segment. -/
def placeholderSeg (start len : Nat) : String :=
  String.intercalate ", " ((List.range len).map (fun k => placeholder (start + k)))

/-- Text of an inline literal (only reachable through `cmpLiteral`, which
the compiler never emits). -/
def renderValue : Value → String
  | .scalar .null => "NULL"
  | .scalar (.boolean b) => if b then "TRUE" else "FALSE"
  | .scalar (.int n) => toString n
  | .scalar (.str s) => s
  | .list _ => ""

/-- Render the WHERE clause as text. -/
def renderSql : SqlExpr → String
  | .strue => "1 = 1"
  | .sfalse => "1 = 0"
  | .cmpParam col op i => col ++ " " ++ renderCmpOp op ++ " " ++ placeholder i
  | .cmpLiteral col op v => col ++ " " ++ renderCmpOp op ++ " " ++ renderValue v
  | .inParams col s l => col ++ " IN (" ++ placeholderSeg s l ++ ")"
  | .notInParams col s l => col ++ " NOT IN (" ++ placeholderSeg s l ++ ")"
  | .anyParam col i => placeholder i ++ " = ANY(" ++ col ++ ")"
  | .isNullExpr col => col ++ " IS NULL"
  | .isNotNullExpr col => col ++ " IS NOT NULL"
  | .snot e => "NOT (" ++ renderSql e ++ ")"
  | .sand a b => "(" ++ renderSql a ++ " AND " ++ renderSql b ++ ")"
  | .sor a b => "(" ++ renderSql a ++ " OR " ++ renderSql b ++ ")"

/-- The backend's public output: WHERE text plus ordered parameters. -/
def toPgvectorFilter (p : Policy) (u : Obj) : Option (String × List Value) :=
  (toPgvectorExpr p u).map (fun ep => (renderSql ep.1, ep.2))

/-- The clause is fully parameterized: no inline-literal node occurs. -/
def sqlParameterized : SqlExpr → Bool
  | .cmpLiteral _ _ _ => false
  | .snot e => sqlParameterized e
  | .sand a b => sqlParameterized a && sqlParameterized b
  | .sor a b => sqlParameterized a && sqlParameterized b
  | _ => true

/-- Every parameter position referenced by the clause lies below `n`. -/
def sqlIdxLt : SqlExpr → Nat → Bool
  | .cmpParam _ _ i, n => decide (i < n)
  | .inParams _ s l, n => decide (s + l ≤ n)
  | .notInParams _ s l, n => decide (s + l ≤ n)
  | .anyParam _ i, n => decide (i < n)
  | .snot e, n => sqlIdxLt e n
  | .sand a b, n => sqlIdxLt a n && sqlIdxLt b n
  | .sor a b, n => sqlIdxLt a n && sqlIdxLt b n
  | _, _ => true

/-! ## Backend: operator-tree filter (Weaviate)

Modelled from the spec: `to_weaviate_filter` of `ragguard.filters.builder`
is not in the source tree.  Filters are operator nodes
(`Equal`/`NotEqual`/range/`ContainsAny`/`IsNull`/`And`/`Or`/`Not`) with a
path and a value. -/

/-- Operator-tree filter. -/
inductive WeaviateFilter where
  | wtrue
  | wfalse
  | weq (path : String) (v : Value)
  | wneq (path : String) (v : Value)
  | wcmp (op : CmpOp) (path : String) (s : Scalar)
  | wcontainsAny (path : String) (vs : List Scalar)
  | warrContains (path : String) (s : Scalar)
  | wisNull (path : String) (b : Bool)
  | wnot (f : WeaviateFilter)
  | wand (a b : WeaviateFilter)
  | wor (a b : WeaviateFilter)
deriving DecidableEq

/-- Satisfaction of the operator tree by a document. -/
def wfSat (d : Obj) : WeaviateFilter → Bool
  | .wtrue => true
  | .wfalse => false
  | .weq p v => eqVals (lookupField d p) (some v)
  | .wneq p v => !(eqVals (lookupField d p) (some v))
  | .wcmp op p s => cmpVals op (lookupField d p) (some (Value.scalar s))
  | .wcontainsAny p vs => memVals (lookupField d p) (some (Value.list vs))
  | .warrContains p s => memVals (some (Value.scalar s)) (lookupField d p)
  | .wisNull p b => (!(existsVal (lookupField d p))) == b
  | .wnot f => !(wfSat d f)
  | .wand a b => wfSat d a && wfSat d b
  | .wor a b => wfSat d a || wfSat d b

/-- Render the intermediate filter as an operator tree. -/
def toWeaviateNF : NFilter → WeaviateFilter
  | .top => .wtrue
  | .bot => .wfalse
  | .feq p v => .weq p v
  | .fne p v => .wneq p v
  | .fcmp op p s => .wcmp op p s
  | .anyOf p vs => .wcontainsAny p vs
  | .noneOf p vs => .wnot (.wcontainsAny p vs)
  | .contains p s => .warrContains p s
  | .notContains p s => .wnot (.warrContains p s)
  | .present p => .wisNull p false
  | .absent p => .wisNull p true
  | .conj a b => .wand (toWeaviateNF a) (toWeaviateNF b)
  | .disj a b => .wor (toWeaviateNF a) (toWeaviateNF b)

/-- Compile a policy to the operator-tree backend filter. -/
def toWeaviateFilter (p : Policy) (u : Obj) : Option WeaviateFilter :=
  (compilePolicy p u).map toWeaviateNF

/-! ## Backend: metadata filter with dollar operators (Pinecone)

Modelled from the spec: `to_pinecone_filter` of `ragguard.filters.builder`
is not in the source tree.  Filters use `$eq`/`$ne`/`$gt`/`$gte`/`$lt`/
`$lte`/`$in`/`$nin`/`$exists` on metadata fields, composed with
`$and`/`$or`; the empty filter matches everything. -/

/-- Metadata filter. -/
inductive PineconeFilter where
  | matchAll
  | matchNone
  | peq (field : String) (v : Value)
  | pne (field : String) (v : Value)
  | pcmp (op : CmpOp) (field : String) (s : Scalar)
  | pin (field : String) (vs : List Scalar)
  | pnin (field : String) (vs : List Scalar)
  | pcontains (field : String) (s : Scalar)
  | pnotContains (field : String) (s : Scalar)
  | pexists (field : String) (b : Bool)
  | pand (a b : PineconeFilter)
  | por (a b : PineconeFilter)
deriving DecidableEq

/-- Satisfaction of the metadata filter by a document. -/
def pineconeSat (d : Obj) : PineconeFilter → Bool
  | .matchAll => true
  | .matchNone => false
  | .peq f v => eqVals (lookupField d f) (some v)
  | .pne f v => !(eqVals (lookupField d f) (some v))
  | .pcmp op f s => cmpVals op (lookupField d f) (some (Value.scalar s))
  | .pin f vs => memVals (lookupField d f) (some (Value.list vs))
  | .pnin f vs => !(memVals (lookupField d f) (some (Value.list vs)))
  | .pcontains f s => memVals (some (Value.scalar s)) (lookupField d f)
  | .pnotContains f s => !(memVals (some (Value.scalar s)) (lookupField d f))
  | .pexists f b => existsVal (lookupField d f) == b
  | .pand a b => pineconeSat d a && pineconeSat d b
  | .por a b => pineconeSat d a || pineconeSat d b

/-- Render the intermediate filter with dollar operators. -/
def toPineconeNF : NFilter → PineconeFilter
  | .top => .matchAll
  | .bot => .matchNone
  | .feq p v => .peq p v
  | .fne p v => .pne p v
  | .fcmp op p s => .pcmp op p s
  | .anyOf p vs => .pin p vs
  | .noneOf p vs => .pnin p vs
  | .contains p s => .pcontains p s
  | .notContains p s => .pnotContains p s
  | .present p => .pexists p true
  | .absent p => .pexists p false
  | .conj a b => .pand (toPineconeNF a) (toPineconeNF b)
  | .disj a b => .por (toPineconeNF a) (toPineconeNF b)

/-- Compile a policy to the metadata-filter backend. -/
def toPineconeFilter (p : Policy) (u : Obj) : Option PineconeFilter :=
  (compilePolicy p u).map toPineconeNF

/-! ## Backend: metadata filter with dollar operators (ChromaDB)

Modelled from the spec: `to_chromadb_filter` of `ragguard.filters.builder`
is not in the source tree.  Filters use `$eq`/`$ne`/`$gt`/`$gte`/`$lt`/
`$lte`/`$in`/`$nin` on metadata, composed with `$and`/`$or`; an absent
where-clause matches everything. -/

/-- ChromaDB where-clause. -/
inductive ChromaFilter where
  | noRestriction
  | noneMatch
  | ceq (field : String) (v : Value)
  | cne (field : String) (v : Value)
  | ccmp (op : CmpOp) (field : String) (s : Scalar)
  | cin (field : String) (vs : List Scalar)
  | cnin (field : String) (vs : List Scalar)
  | ccontains (field : String) (s : Scalar)
  | cnotContains (field : String) (s : Scalar)
  | cpresent (field : String) (b : Bool)
  | cwand (a b : ChromaFilter)
  | cwor (a b : ChromaFilter)
deriving DecidableEq

/-- Satisfaction of the where-clause by a document. -/
def chromaSat (d : Obj) : ChromaFilter → Bool
  | .noRestriction => true
  | .noneMatch => false
  | .ceq f v => eqVals (lookupField d f) (some v)
  | .cne f v => !(eqVals (lookupField d f) (some v))
  | .ccmp op f s => cmpVals op (lookupField d f) (some (Value.scalar s))
  | .cin f vs => memVals (lookupField d f) (some (Value.list vs))
  | .cnin f vs => !(memVals (lookupField d f) (some (Value.list vs)))
  | .ccontains f s => memVals (some (Value.scalar s)) (lookupField d f)
  | .cnotContains f s => !(memVals (some (Value.scalar s)) (lookupField d f))
  | .cpresent f b => existsVal (lookupField d f) == b
  | .cwand a b => chromaSat d a && chromaSat d b
  | .cwor a b => chromaSat d a || chromaSat d b

/-- Render the intermediate filter as a ChromaDB where-clause. -/
def toChromaNF : NFilter → ChromaFilter
  | .top => .noRestriction
  | .bot => .noneMatch
  | .feq p v => .ceq p v
  | .fne p v => .cne p v
  | .fcmp op p s => .ccmp op p s
  | .anyOf p vs => .cin p vs
  | .noneOf p vs => .cnin p vs
  | .contains p s => .ccontains p s
  | .notContains p s => .cnotContains p s
  | .present p => .cpresent p true
  | .absent p => .cpresent p false
  | .conj a b => .cwand (toChromaNF a) (toChromaNF b)
  | .disj a b => .cwor (toChromaNF a) (toChromaNF b)

/-- Compile a policy to the ChromaDB backend filter. -/
def toChromaFilter (p : Policy) (u : Obj) : Option ChromaFilter :=
  (compilePolicy p u).map toChromaNF

/-! ## Policy limits

Modelled from the spec: `PolicyLimits` of `ragguard.policy.models` is not
in the source tree; the numeric values of the limits are not given by the
spec, so representative constants are used.  The repository's test
`test_complexity_limits.py` pins the error text "Too many rules" and the
all-or-nothing construction. -/

/-- Maximum number of rules accepted at construction. -/
def MAX_RULES : Nat := 100

/-- Maximum number of conditions per rule accepted at construction. -/
def MAX_CONDITIONS_PER_RULE : Nat := 20

/-- A rule respects the per-rule condition limit. -/
def ruleConditionsOk (r : Rule) : Bool :=
  r.allow.conditions.length ≤ MAX_CONDITIONS_PER_RULE

/-- Validated policy construction: all-or-nothing, limits enforced at
construction time, never at evaluation.  The error names the offending
limit. -/
def mkPolicy (version : String) (rules : List Rule) (dflt : Decision) :
    Except String Policy :=
  if MAX_RULES < rules.length then
    .error ("Too many rules: " ++ toString rules.length
      ++ " (max " ++ toString MAX_RULES ++ ")")
  else if !(rules.all ruleConditionsOk) then
    .error "Too many conditions in a rule"
  else
    .ok { version := version, rules := rules, default := dflt }

/-! ## Filter cache

Modelled from the spec: the filter cache of `ragguard.cache` and the
retriever's policy setter are not in the source tree.  The key is the
stable fingerprint (policy identity/version counter, backend id,
canonical serialization of the user — the conservative whole-user
fallback); replacing the policy bumps the identity counter, so every
entry of the old policy can never be hit again. -/

/-- The five compilation targets. -/
inductive Backend where
  | qdrant | pgvector | weaviate | pinecone | chromadb
deriving DecidableEq

/-- Cache key: policy identity, backend id, user fingerprint. -/
structure CacheKey where
  policyId : Nat
  backend : Backend
  userFingerprint : List (String × Value)
deriving DecidableEq

/-- Retriever state: current policy with its identity counter, cache
entries (compiled intermediate filters), hit/miss counters. -/
structure RetrieverState where
  policy : Policy
  policyId : Nat
  entries : List (CacheKey × Option NFilter)
  hits : Nat
  misses : Nat

/-- Fingerprint key for a (user, backend) access under the current
policy. -/
def mkKey (s : RetrieverState) (u : Obj) (b : Backend) : CacheKey :=
  { policyId := s.policyId, backend := b, userFingerprint := u }

/-- Result of a cache access: the compiled filter, whether it was served
from the cache, and the next state. -/
structure FetchResult where
  filter : Option NFilter
  wasHit : Bool
  state : RetrieverState

/-- `get_or_compile(policy_id, user, backend)`: serve from the cache on a
key hit, otherwise compile and insert. -/
def getOrCompile (s : RetrieverState) (u : Obj) (b : Backend) : FetchResult :=
  let k := mkKey s u b
  match s.entries.lookup k with
  | some f => { filter := f, wasHit := true, state := { s with hits := s.hits + 1 } }
  | none =>
    let f := compilePolicy s.policy u
    { filter := f, wasHit := false,
      state := { s with misses := s.misses + 1, entries := (k, f) :: s.entries } }

/-- Replace the retriever's policy: a fresh identity counter invalidates
the entire cache with no explicit flush. -/
def setPolicy (s : RetrieverState) (p : Policy) : RetrieverState :=
  { s with policy := p, policyId := s.policyId + 1 }

/-- Explicit `invalidate()` for out-of-band permission changes. -/
def invalidateCache (s : RetrieverState) : RetrieverState :=
  { s with entries := [] }

/-- Fresh retriever around a policy. -/
def initState (p : Policy) : RetrieverState :=
  { policy := p, policyId := 0, entries := [], hits := 0, misses := 0 }

/-- Cache well-formedness: every entry was keyed under the current or an
older policy identity. -/
def CacheInv (s : RetrieverState) : Prop :=
  ∀ k ∈ s.entries.map Prod.fst, k.policyId ≤ s.policyId

/-! ## Concrete policies, users and documents

Scenarios taken from the repository's tests, used by the closed witnesses
and counterexamples below. -/

/-- The rule of `test_not_in_operator.py::test_policy_engine_not_in`:
`everyone: true` together with a `not in` condition. -/
def exclusionList : Value :=
  Value.list [.str "restricted", .str "classified", .str "top-secret"]

def exclusionRule : Rule :=
  { name := "exclude-restricted"
    matchClause := none
    allow := { everyone := true
               roles := []
               conditions := [Cond.notIn (.docField "category") (.lit exclusionList)] } }

/-- Single-rule policy around `exclusionRule`, default deny. -/
def exclusionPolicy : Policy :=
  { version := "1", rules := [exclusionRule], default := .deny }

/-- A document in the exclusion list. -/
def restrictedDoc : Obj := [("category", Value.scalar (.str "restricted"))]

/-- A document outside the exclusion list. -/
def publicDoc : Obj := [("category", Value.scalar (.str "public"))]

/-- The deny-all scenario of
`base_retriever_tests.py::test_search_deny_all_default`: one rule whose
match gate can never pass, default deny. -/
def impossibleRule : Rule :=
  { name := "impossible"
    matchClause := some [("visibility", Value.scalar (.str "nonexistent"))]
    allow := { everyone := true, roles := [], conditions := [] } }

def denyAllPolicy : Policy :=
  { version := "1", rules := [impossibleRule], default := .deny }

/-- Cross-backend scenario from the spec's §8 and the integration tests:
department-equality rule plus a category-membership rule. -/
def departmentRule : Rule :=
  { name := "department-access"
    matchClause := none
    allow := { everyone := false
               roles := []
               conditions := [Cond.cmp .eq (.userField "department") (.docField "department")] } }

def categoryRule : Rule :=
  { name := "category-access"
    matchClause := none
    allow := { everyone := false
               roles := []
               conditions := [Cond.isIn (.docField "category")
                 (.lit (Value.list [.str "cs.AI", .str "cs.LG"]))] } }

def crossPolicy : Policy :=
  { version := "1", rules := [departmentRule, categoryRule], default := .deny }

/-- Engineering user for the cross-backend scenario. -/
def engUser : Obj := [("department", Value.scalar (.str "eng"))]

/-- Document visible to `engUser` through both rules. -/
def engDoc : Obj :=
  [("department", Value.scalar (.str "eng")),
   ("category", Value.scalar (.str "cs.AI"))]

/-- A rule with an empty allow restriction, used to exercise the policy
limits. -/
def trivialRule : Rule :=
  { name := "r", matchClause := none,
    allow := { everyone := true, roles := [], conditions := [] } }

/-- Compiled structured filter of the cross-backend scenario. -/
def c1Qdrant : QdrantFilter :=
  (toQdrantFilter crossPolicy engUser).getD (.filter [] [] [])

/-- Compiled WHERE clause of the cross-backend scenario. -/
def c1Sql : SqlExpr :=
  ((toPgvectorExpr crossPolicy engUser).getD (.sfalse, [])).1

/-- Parameter list of the cross-backend scenario. -/
def c1Params : List Value :=
  ((toPgvectorExpr crossPolicy engUser).getD (.sfalse, [])).2

/-- Compiled operator tree of the cross-backend scenario. -/
def c1Weaviate : WeaviateFilter :=
  (toWeaviateFilter crossPolicy engUser).getD .wfalse

/-- Compiled metadata filter of the cross-backend scenario (Pinecone). -/
def c1Pinecone : PineconeFilter :=
  (toPineconeFilter crossPolicy engUser).getD .matchNone

/-- Compiled where-clause of the cross-backend scenario (ChromaDB). -/
def c1Chroma : ChromaFilter :=
  (toChromaFilter crossPolicy engUser).getD .noneMatch

/-! # Theorems -/

/-- The boolean outcome of the ordered walk is the disjunction of the
per-rule outcomes with the default. -/
theorem evalRules_eq_any (u d : Obj) (dflt : Bool) (rs : List Rule) :
    evalRules u d dflt rs = (rs.any (ruleAllows u d) || dflt) := by
  induction rs with
  | nil => simp [evalRules]
  | cons r rs ih =>
    simp only [evalRules, List.any_cons]
    cases h : ruleAllows u d r <;> simp [h, ih]

/-- C3: `evaluate` walks the rules in declaration order, returns `true`
at the first rule whose match gate and allow clause both succeed, and
otherwise returns the default (allow ⇒ true, deny ⇒ false); with default
deny and no succeeding rule it returns `false`. -/
theorem evaluate_order_and_default (p : Policy) (u d : Obj) :
    p.evaluate u d = (p.rules.any (ruleAllows u d) || p.default == Decision.allow)
    ∧ (p.default = Decision.deny →
        (∀ r ∈ p.rules, ruleAllows u d r = false) → p.evaluate u d = false) := by
  constructor
  · simp [Policy.evaluate, evalRules_eq_any]
  · intro hdef hnone
    have hany : p.rules.any (ruleAllows u d) = false := by
      rw [List.any_eq_false]
      intro r hr
      simp [hnone r hr]
    simp [Policy.evaluate, evalRules_eq_any, hany, hdef]

/-- Witness for C3: the deny-all policy of
`test_search_deny_all_default` denies a concrete document. -/
theorem evaluate_order_and_default_witness :
    Policy.evaluate denyAllPolicy [] publicDoc = false :=
  (evaluate_order_and_default denyAllPolicy [] publicDoc).2 rfl (by decide)

/-- C4: the post-filter fallback returns an order-preserving sublist of
the candidates containing only authorized documents, of length at most
`limit`. -/
theorem filterCandidates_contract (p : Policy) (u : Obj) (candidates : List Obj)
    (limit : Nat) :
    (filterCandidates p u candidates limit).Sublist candidates
    ∧ (∀ d ∈ filterCandidates p u candidates limit, p.evaluate u d = true)
    ∧ (filterCandidates p u candidates limit).length ≤ limit := by
  refine ⟨?_, ?_, ?_⟩
  · exact (List.take_sublist _ _).trans (List.filter_sublist _)
  · intro d hd
    have hm : d ∈ candidates.filter (fun d => p.evaluate u d) :=
      List.mem_of_mem_take hd
    simpa using (List.mem_filter.mp hm).2
  · exact List.length_take_le _ _

/-- Witness for C4 at a concrete candidate list with an unauthorized
document and a limit larger than the authorized count. -/
theorem filterCandidates_contract_witness :
    (∀ d ∈ filterCandidates exclusionPolicy [] [restrictedDoc, publicDoc] 5,
      Policy.evaluate exclusionPolicy [] d = true)
    ∧ (filterCandidates exclusionPolicy [] [restrictedDoc, publicDoc] 5).length ≤ 5 :=
  ⟨(filterCandidates_contract exclusionPolicy [] [restrictedDoc, publicDoc] 5).2.1,
   (filterCandidates_contract exclusionPolicy [] [restrictedDoc, publicDoc] 5).2.2⟩

/-- C2 counterexample: in the policy of
`test_not_in_operator.py::test_policy_engine_not_in`, the single rule has
`everyone: true` and no match gate, yet `evaluate` denies a document that
fails the rule's `not in` condition — the everyone flag alone is not
sufficient and is not checked before the conditions. -/
theorem everyone_not_sufficient_counterexample :
    exclusionRule.allow.everyone = true
    ∧ exclusionRule.matchClause = none
    ∧ exclusionRule ∈ exclusionPolicy.rules
    ∧ Policy.evaluate exclusionPolicy [] restrictedDoc = false :=
  ⟨rfl, rfl, by decide, by decide⟩

/-- C2 amended: for every rule whose allow clause has `everyone = true`,
and every (user, document) pair that passes the rule's match gate, the
everyone flag waives the role check, but the rule's conditions must still
all hold; when they do, `evaluate` returns ALLOW at that rule. -/
theorem everyone_rule_with_passing_conditions_allows (p : Policy) (u d : Obj)
    (r : Rule) (hr : r ∈ p.rules) (he : r.allow.everyone = true)
    (hm : matchGateOk r.matchClause d = true)
    (hc : r.allow.conditions.all (evalCond u d) = true) :
    p.evaluate u d = true := by
  have hra : ruleAllows u d r = true := by
    simp [ruleAllows, identityOk, he, hm, hc]
  have hany : p.rules.any (ruleAllows u d) = true :=
    List.any_eq_true.mpr ⟨r, hr, hra⟩
  simp [Policy.evaluate, evalRules_eq_any, hany]

/-- Witness for the amended C2: the same everyone-rule allows a concrete
document that satisfies its condition. -/
theorem everyone_rule_with_passing_conditions_allows_witness :
    Policy.evaluate exclusionPolicy [] publicDoc = true :=
  everyone_rule_with_passing_conditions_allows exclusionPolicy [] publicDoc
    exclusionRule (by decide) (by decide) (by decide) (by decide)

/-- Equality with a missing operand on the left is false. -/
theorem eqVals_none_left (mv : Option Value) : eqVals none mv = false := by
  cases mv <;> rfl

/-- An ordering with a missing left operand is false. -/
theorem ordVals_none_left (op : CmpOp) (mv : Option Value) :
    ordVals op none mv = false := by
  cases mv with
  | none => rfl
  | some v => cases v <;> rfl

/-- Any comparison with a missing left operand is false, except `!=`,
which is true. -/
theorem cmpVals_missing_left (op : CmpOp) (mv : Option Value) :
    cmpVals op none mv = decide (op = CmpOp.ne) := by
  cases op <;> cases mv <;> simp [cmpVals, eqVals, ordVals_none_left]

/-- Membership with a missing left operand is false. -/
theorem memVals_none_left (mv : Option Value) : memVals none mv = false := by
  cases mv with
  | none => rfl
  | some v => cases v <;> rfl

/-- C6: during condition evaluation, a field operand — `user.<path>` or
`document.<path>` — whose path is missing from the referenced object
(the operand resolves to the missing-field sentinel) makes `==`, `>`,
`<`, `>=`, `<=`, `in`, array-membership and `exists` evaluate to false
and makes `!=` and `not exists` evaluate to true; evaluation is a total
boolean function (no exception), and equality across scalar kinds is
false (no implicit coercion).  For `fld = .userField path` the
hypothesis is exactly `lookupField u path = none`, for
`fld = .docField path` it is exactly `lookupField d path = none`. -/
theorem missing_field_condition_semantics (u d : Obj) (fld : Operand)
    (hmiss : resolveOperand u d fld = none) (rhs : Operand) :
    evalCond u d (.cmp .eq fld rhs) = false
    ∧ evalCond u d (.cmp .ne fld rhs) = true
    ∧ evalCond u d (.cmp .gt fld rhs) = false
    ∧ evalCond u d (.cmp .lt fld rhs) = false
    ∧ evalCond u d (.cmp .ge fld rhs) = false
    ∧ evalCond u d (.cmp .le fld rhs) = false
    ∧ evalCond u d (.isIn fld rhs) = false
    ∧ evalCond u d (.fieldExists fld) = false
    ∧ evalCond u d (.fieldAbsent fld) = true
    ∧ (∀ s n, evalCond u d (.cmp .eq (.lit (.scalar (.str s)))
        (.lit (.scalar (.int n)))) = false)
    ∧ (∀ b n, evalCond u d (.cmp .eq (.lit (.scalar (.boolean b)))
        (.lit (.scalar (.int n)))) = false) := by
  refine ⟨?_, ?_, ?_, ?_, ?_, ?_, ?_, ?_, ?_, ?_, ?_⟩
  · simp only [evalCond, hmiss, cmpVals_missing_left]
    rfl
  · simp only [evalCond, hmiss, cmpVals_missing_left]
    rfl
  · simp only [evalCond, hmiss, cmpVals_missing_left]
    rfl
  · simp only [evalCond, hmiss, cmpVals_missing_left]
    rfl
  · simp only [evalCond, hmiss, cmpVals_missing_left]
    rfl
  · simp only [evalCond, hmiss, cmpVals_missing_left]
    rfl
  · simp only [evalCond, hmiss, memVals_none_left]
  · simp only [evalCond, hmiss]
    rfl
  · simp only [evalCond, hmiss]
    rfl
  · intro s n
    simp [evalCond, resolveOperand, cmpVals, eqVals, beq_eq_false_iff_ne]
  · intro b n
    simp [evalCond, resolveOperand, cmpVals, eqVals, beq_eq_false_iff_ne]

/-- Witness for C6 at a concrete document missing `reviewed_at` and a
concrete user missing `clearance_level`: both sides of the claim are
exercised. -/
theorem missing_field_condition_semantics_witness :
    evalCond [] publicDoc (.cmp .ne (.docField "reviewed_at") (.lit (.scalar (.str "x")))) = true
    ∧ evalCond [] publicDoc (.fieldExists (.docField "reviewed_at")) = false
    ∧ evalCond [] publicDoc (.cmp .eq (.userField "clearance_level") (.lit (.scalar (.int 3)))) = false
    ∧ evalCond [] publicDoc (.isIn (.userField "clearance_level") (.docField "category")) = false
    ∧ evalCond [] publicDoc (.fieldAbsent (.userField "clearance_level")) = true :=
  ⟨((missing_field_condition_semantics [] publicDoc (.docField "reviewed_at") (by decide)
      (.lit (.scalar (.str "x")))).2.1),
   ((missing_field_condition_semantics [] publicDoc (.docField "reviewed_at") (by decide)
      (.lit (.scalar (.str "x")))).2.2.2.2.2.2.2.1),
   ((missing_field_condition_semantics [] publicDoc (.userField "clearance_level") (by decide)
      (.lit (.scalar (.int 3)))).1),
   ((missing_field_condition_semantics [] publicDoc (.userField "clearance_level") (by decide)
      (.docField "category")).2.2.2.2.2.2.1),
   ((missing_field_condition_semantics [] publicDoc (.userField "clearance_level") (by decide)
      (.lit (.scalar (.int 3)))).2.2.2.2.2.2.2.2.1)⟩

/-- Membership in the empty list is false for any resolved operand. -/
theorem memVals_empty_list (mv : Option Value) :
    memVals mv (some (Value.list [])) = false := by
  cases mv with
  | none => rfl
  | some v => cases v <;> rfl

/-- C7: `x in []` evaluates to false and `x not in []` to true for every
operand, and both compile to the short-circuited always-false /
always-true native filter. -/
theorem empty_list_short_circuit (u d : Obj) (x : Operand) :
    evalCond u d (.isIn x (.lit (Value.list []))) = false
    ∧ evalCond u d (.notIn x (.lit (Value.list []))) = true
    ∧ compileCond u (.isIn x (.lit (Value.list []))) = some NFilter.bot
    ∧ compileCond u (.notIn x (.lit (Value.list []))) = some NFilter.top := by
  have heval : ∀ y : Operand,
      memVals (resolveOperand u d y) (some (Value.list [])) = false :=
    fun y => memVals_empty_list _
  refine ⟨?_, ?_, ?_, ?_⟩
  · simp only [evalCond]
    exact heval x
  · show (!memVals (resolveOperand u d x) (some (Value.list []))) = true
    rw [heval x]
    rfl
  · cases x <;>
      simp [compileCond, compileMemb, cvalue, compileMembKnown, membNF,
        polarBool, boolNF, memVals_empty_list]
  · cases x <;>
      simp [compileCond, compileMemb, cvalue, compileMembKnown, membNF,
        polarBool, boolNF, memVals_empty_list]

/-- C10: a field present but bound to null is treated like an absent
field by the existence operators: `exists` is false, `not exists` is
true. -/
theorem null_field_existence (u d : Obj) (path : String)
    (h : lookupField d path = some (Value.scalar Scalar.null)) :
    evalCond u d (.fieldExists (.docField path)) = false
    ∧ evalCond u d (.fieldAbsent (.docField path)) = true := by
  constructor <;> simp [evalCond, resolveOperand, h, existsVal]

/-- Witness for C10: `reviewed_at = None` does not exist; `draft_notes =
None` satisfies `not exists`. -/
theorem null_field_existence_witness :
    evalCond [] [("reviewed_at", Value.scalar Scalar.null)]
      (.fieldExists (.docField "reviewed_at")) = false
    ∧ evalCond [] [("draft_notes", Value.scalar Scalar.null)]
      (.fieldAbsent (.docField "draft_notes")) = true :=
  ⟨(null_field_existence [] [("reviewed_at", Value.scalar Scalar.null)]
      "reviewed_at" (by decide)).1,
   (null_field_existence [] [("draft_notes", Value.scalar Scalar.null)]
      "draft_notes" (by decide)).2⟩

/-- C9: a policy with MAX_RULES+1 rules fails construction with an error
naming too many rules, a policy with exactly MAX_RULES rules succeeds,
and construction is all-or-nothing: a successful construction carries
exactly the given rules. -/
theorem max_rules_limit (version : String) (rules : List Rule) (dflt : Decision)
    (hconds : rules.all ruleConditionsOk = true) :
    (rules.length = MAX_RULES + 1 →
      mkPolicy version rules dflt
        = .error ("Too many rules: " ++ toString (MAX_RULES + 1)
            ++ " (max " ++ toString MAX_RULES ++ ")"))
    ∧ (rules.length = MAX_RULES →
      mkPolicy version rules dflt
        = .ok { version := version, rules := rules, default := dflt })
    ∧ (∀ q, mkPolicy version rules dflt = .ok q →
      q.rules = rules ∧ q.version = version ∧ q.default = dflt) := by
  refine ⟨?_, ?_, ?_⟩
  · intro h
    have hlt : MAX_RULES < rules.length := by omega
    simp [mkPolicy, hlt, h]
  · intro h
    have hlt : ¬ MAX_RULES < rules.length := by omega
    simp [mkPolicy, hlt, hconds]
  · intro q hq
    unfold mkPolicy at hq
    split at hq
    · exact absurd hq (by simp)
    · split at hq
      · exact absurd hq (by simp)
      · rw [Except.ok.injEq] at hq
        subst hq
        exact ⟨rfl, rfl, rfl⟩

/-- Witness for C9: 101 copies of a minimal rule are rejected with the
"Too many rules" error, 100 are accepted. -/
theorem max_rules_limit_witness :
    mkPolicy "1" (List.replicate (MAX_RULES + 1) trivialRule) Decision.deny
      = .error ("Too many rules: " ++ toString (MAX_RULES + 1)
          ++ " (max " ++ toString MAX_RULES ++ ")")
    ∧ mkPolicy "1" (List.replicate MAX_RULES trivialRule) Decision.deny
      = .ok { version := "1", rules := List.replicate MAX_RULES trivialRule,
              default := Decision.deny } :=
  ⟨(max_rules_limit "1" (List.replicate (MAX_RULES + 1) trivialRule)
      Decision.deny (by decide)).1 (by simp),
   (max_rules_limit "1" (List.replicate MAX_RULES trivialRule)
      Decision.deny (by decide)).2.1 (by simp)⟩

/-- A fresh retriever satisfies the cache invariant. -/
theorem cacheInv_init (p : Policy) : CacheInv (initState p) := by
  intro k hk
  simp [initState] at hk

/-- `get_or_compile` preserves the cache invariant. -/
theorem cacheInv_getOrCompile (s : RetrieverState) (u : Obj) (b : Backend)
    (h : CacheInv s) : CacheInv (getOrCompile s u b).state := by
  intro k hk
  unfold getOrCompile at hk ⊢
  cases hlk : List.lookup (mkKey s u b) s.entries with
  | some f =>
    simp only [hlk] at hk ⊢
    exact h k hk
  | none =>
    simp only [hlk, List.map_cons, List.mem_cons] at hk ⊢
    rcases hk with hk | hk
    · subst hk
      exact Nat.le_refl _
    · exact h k hk

/-- The explicit flush yields a state satisfying the cache invariant. -/
theorem cacheInv_invalidate (s : RetrieverState) :
    CacheInv (invalidateCache s) := by
  intro k hk
  simp [invalidateCache] at hk

/-- Replacing the policy preserves the cache invariant. -/
theorem cacheInv_setPolicy (s : RetrieverState) (p : Policy) (h : CacheInv s) :
    CacheInv (setPolicy s p) := by
  intro k hk
  exact Nat.le_succ_of_le (h k hk)

/-- A key whose policy identity is strictly newer than every stored key
is never found. -/
theorem lookup_none_of_newer (entries : List (CacheKey × Option NFilter))
    (n : Nat) (hold : ∀ k ∈ entries.map Prod.fst, k.policyId ≤ n)
    (key : CacheKey) (hnew : key.policyId = n + 1) :
    entries.lookup key = none := by
  induction entries with
  | nil => rfl
  | cons e es ih =>
    have h₁ : e.1.policyId ≤ n := hold e.1 (by simp)
    have hne : ¬ (key == e.1) = true := by
      intro hbeq
      have heq : key = e.1 := eq_of_beq hbeq
      rw [heq] at hnew
      omega
    have hrest : ∀ k ∈ es.map Prod.fst, k.policyId ≤ n :=
      fun k hk => hold k (by simp [hk])
    simp only [List.lookup, Bool.not_eq_true] at hne ⊢
    rw [hne]
    exact ih hrest

/-- C5: replacing the retriever's policy invalidates the entire filter
cache: for every user and every backend, the first `get_or_compile`
access after the swap is a cache miss, with no explicit `invalidate()`
call. -/
theorem policy_swap_invalidates_cache (s : RetrieverState) (hinv : CacheInv s)
    (p : Policy) (u : Obj) (b : Backend) :
    (getOrCompile (setPolicy s p) u b).wasHit = false := by
  have hnone : (setPolicy s p).entries.lookup (mkKey (setPolicy s p) u b) = none := by
    apply lookup_none_of_newer s.entries s.policyId
    · exact hinv
    · rfl
  unfold getOrCompile
  simp only [hnone]

/-- Witness for C5: populate a fresh cache with one compiled entry, swap
the policy, and observe that the same (user, backend) access misses. -/
theorem policy_swap_invalidates_cache_witness :
    (getOrCompile
      (setPolicy (getOrCompile (initState exclusionPolicy) engUser .qdrant).state
        crossPolicy)
      engUser .qdrant).wasHit = false :=
  policy_swap_invalidates_cache
    (getOrCompile (initState exclusionPolicy) engUser .qdrant).state
    (cacheInv_getOrCompile _ _ _ (cacheInv_init _))
    crossPolicy engUser .qdrant

/-- A compile-time operand resolves, at any document, to its compile-time
value. -/
theorem cvalue_resolve (u d : Obj) (o : Operand) (mv : Option Value)
    (h : cvalue u o = some mv) : resolveOperand u d o = mv := by
  cases o with
  | userField p =>
    simp [cvalue] at h
    simp [resolveOperand, h]
  | docField p => simp [cvalue] at h
  | lit v =>
    simp [cvalue] at h
    simp [resolveOperand, h]

/-- Exchanging the operands of `>` gives `<`. -/
theorem scalarOrd_flip_gt (a b : Scalar) :
    scalarOrd CmpOp.lt a b = scalarOrd CmpOp.gt b a := by
  cases a <;> cases b <;> rfl

/-- Exchanging the operands of `<` gives `>`. -/
theorem scalarOrd_flip_lt (a b : Scalar) :
    scalarOrd CmpOp.gt a b = scalarOrd CmpOp.lt b a := by
  cases a <;> cases b <;> rfl

/-- Exchanging the operands of `>=` gives `<=`. -/
theorem scalarOrd_flip_ge (a b : Scalar) :
    scalarOrd CmpOp.le a b = scalarOrd CmpOp.ge b a := by
  cases a <;> cases b <;> rfl

/-- Exchanging the operands of `<=` gives `>=`. -/
theorem scalarOrd_flip_le (a b : Scalar) :
    scalarOrd CmpOp.ge a b = scalarOrd CmpOp.le b a := by
  cases a <;> cases b <;> rfl

/-- Structural operand equality is symmetric. -/
theorem eqVals_symm (ma mb : Option Value) : eqVals ma mb = eqVals mb ma := by
  cases ma <;> cases mb <;> simp [eqVals, BEq.comm]

/-- Exchanging the operands of an ordering mirrors the operator (`>`). -/
theorem ordVals_flip_gt (ma mb : Option Value) :
    ordVals CmpOp.lt ma mb = ordVals CmpOp.gt mb ma := by
  cases ma with
  | none => cases mb with
    | none => rfl
    | some w => cases w <;> rfl
  | some v =>
    cases mb with
    | none => cases v <;> rfl
    | some w =>
      cases v with
      | scalar a =>
        cases w with
        | scalar b => exact scalarOrd_flip_gt a b
        | list ys => rfl
      | list xs => cases w <;> rfl

/-- Exchanging the operands of an ordering mirrors the operator (`<`). -/
theorem ordVals_flip_lt (ma mb : Option Value) :
    ordVals CmpOp.gt ma mb = ordVals CmpOp.lt mb ma := by
  cases ma with
  | none => cases mb with
    | none => rfl
    | some w => cases w <;> rfl
  | some v =>
    cases mb with
    | none => cases v <;> rfl
    | some w =>
      cases v with
      | scalar a =>
        cases w with
        | scalar b => exact scalarOrd_flip_lt a b
        | list ys => rfl
      | list xs => cases w <;> rfl

/-- Exchanging the operands of an ordering mirrors the operator (`>=`). -/
theorem ordVals_flip_ge (ma mb : Option Value) :
    ordVals CmpOp.le ma mb = ordVals CmpOp.ge mb ma := by
  cases ma with
  | none => cases mb with
    | none => rfl
    | some w => cases w <;> rfl
  | some v =>
    cases mb with
    | none => cases v <;> rfl
    | some w =>
      cases v with
      | scalar a =>
        cases w with
        | scalar b => exact scalarOrd_flip_ge a b
        | list ys => rfl
      | list xs => cases w <;> rfl

/-- Exchanging the operands of an ordering mirrors the operator (`<=`). -/
theorem ordVals_flip_le (ma mb : Option Value) :
    ordVals CmpOp.ge ma mb = ordVals CmpOp.le mb ma := by
  cases ma with
  | none => cases mb with
    | none => rfl
    | some w => cases w <;> rfl
  | some v =>
    cases mb with
    | none => cases v <;> rfl
    | some w =>
      cases v with
      | scalar a =>
        cases w with
        | scalar b => exact scalarOrd_flip_le a b
        | list ys => rfl
      | list xs => cases w <;> rfl

/-- Comparison semantics mirror under operand exchange. -/
theorem cmpVals_flip (op : CmpOp) (ma mb : Option Value) :
    cmpVals (flipCmp op) ma mb = cmpVals op mb ma := by
  cases op with
  | eq =>
    simp only [flipCmp, cmpVals]
    exact eqVals_symm ma mb
  | ne =>
    simp only [flipCmp, cmpVals]
    rw [eqVals_symm ma mb]
  | gt =>
    simp only [flipCmp, cmpVals]
    exact ordVals_flip_gt ma mb
  | lt =>
    simp only [flipCmp, cmpVals]
    exact ordVals_flip_lt ma mb
  | ge =>
    simp only [flipCmp, cmpVals]
    exact ordVals_flip_ge ma mb
  | le =>
    simp only [flipCmp, cmpVals]
    exact ordVals_flip_le ma mb

/-- The compiled right-hand comparison has the engine's semantics. -/
theorem compileCmpRight_sat (d : Obj) (op : CmpOp) (p : String)
    (mv : Option Value) :
    nfSat d (compileCmpRight op p mv) = cmpVals op (lookupField d p) mv := by
  cases op with
  | eq =>
    cases mv with
    | none =>
      simp [compileCmpRight, nfSat, cmpVals]
      cases lookupField d p <;> simp [eqVals]
    | some v => simp [compileCmpRight, nfSat, cmpVals]
  | ne =>
    cases mv with
    | none =>
      simp [compileCmpRight, nfSat, cmpVals]
      cases lookupField d p <;> simp [eqVals]
    | some v => simp [compileCmpRight, nfSat, cmpVals]
  | gt =>
    cases mv with
    | none =>
      simp [compileCmpRight, nfSat]
      cases lookupField d p with
      | none => rfl
      | some w => cases w <;> rfl
    | some v =>
      cases v with
      | scalar s => simp [compileCmpRight, nfSat]
      | list xs =>
        simp [compileCmpRight, nfSat]
        cases lookupField d p with
        | none => rfl
        | some w => cases w <;> rfl
  | lt =>
    cases mv with
    | none =>
      simp [compileCmpRight, nfSat]
      cases lookupField d p with
      | none => rfl
      | some w => cases w <;> rfl
    | some v =>
      cases v with
      | scalar s => simp [compileCmpRight, nfSat]
      | list xs =>
        simp [compileCmpRight, nfSat]
        cases lookupField d p with
        | none => rfl
        | some w => cases w <;> rfl
  | ge =>
    cases mv with
    | none =>
      simp [compileCmpRight, nfSat]
      cases lookupField d p with
      | none => rfl
      | some w => cases w <;> rfl
    | some v =>
      cases v with
      | scalar s => simp [compileCmpRight, nfSat]
      | list xs =>
        simp [compileCmpRight, nfSat]
        cases lookupField d p with
        | none => rfl
        | some w => cases w <;> rfl
  | le =>
    cases mv with
    | none =>
      simp [compileCmpRight, nfSat]
      cases lookupField d p with
      | none => rfl
      | some w => cases w <;> rfl
    | some v =>
      cases v with
      | scalar s => simp [compileCmpRight, nfSat]
      | list xs =>
        simp [compileCmpRight, nfSat]
        cases lookupField d p with
        | none => rfl
        | some w => cases w <;> rfl

/-- The compiled comparison has the engine's semantics. -/
theorem compileCmp_sat (u d : Obj) (op : CmpOp) (l r : Operand) (f : NFilter)
    (h : compileCmp u op l r = some f) :
    nfSat d f = cmpVals op (resolveOperand u d l) (resolveOperand u d r) := by
  cases l with
  | docField p =>
    cases r with
    | docField q => simp [compileCmp] at h
    | userField q =>
      simp only [compileCmp, cvalue] at h
      obtain rfl := Option.some.inj h
      rw [compileCmpRight_sat]
      rfl
    | lit v =>
      simp only [compileCmp, cvalue] at h
      obtain rfl := Option.some.inj h
      rw [compileCmpRight_sat]
      rfl
  | userField p =>
    cases r with
    | docField q =>
      simp only [compileCmp, cvalue] at h
      obtain rfl := Option.some.inj h
      rw [compileCmpRight_sat, cmpVals_flip]
      rfl
    | userField q =>
      simp only [compileCmp, cvalue] at h
      obtain rfl := Option.some.inj h
      cases hb : cmpVals op (lookupField u p) (lookupField u q) <;>
        simp [boolNF, nfSat, resolveOperand, hb]
    | lit v =>
      simp only [compileCmp, cvalue] at h
      obtain rfl := Option.some.inj h
      cases hb : cmpVals op (lookupField u p) (some v) <;>
        simp [boolNF, nfSat, resolveOperand, hb]
  | lit v =>
    cases r with
    | docField q =>
      simp only [compileCmp, cvalue] at h
      obtain rfl := Option.some.inj h
      rw [compileCmpRight_sat, cmpVals_flip]
      rfl
    | userField q =>
      simp only [compileCmp, cvalue] at h
      obtain rfl := Option.some.inj h
      cases hb : cmpVals op (some v) (lookupField u q) <;>
        simp [boolNF, nfSat, resolveOperand, hb]
    | lit w =>
      simp only [compileCmp, cvalue] at h
      obtain rfl := Option.some.inj h
      cases hb : cmpVals op (some v) (some w) <;>
        simp [boolNF, nfSat, resolveOperand, hb]

/-- The compiled membership with a known right operand has the engine's
semantics. -/
theorem compileMembKnown_sat (u d : Obj) (pos : Bool) (x : Operand)
    (mw : Option Value) (f : NFilter) (h : compileMembKnown u pos x mw = some f) :
    nfSat d f = polarBool pos (memVals (resolveOperand u d x) mw) := by
  cases mw with
  | some w =>
    cases w with
    | list ys =>
      cases x with
      | docField p =>
        simp only [compileMembKnown] at h
        obtain rfl := Option.some.inj h
        by_cases hys : ys.isEmpty
        · have hnil : ys = [] := List.isEmpty_iff.mp hys
          subst hnil
          cases pos <;>
            simp [membNF, boolNF, nfSat, polarBool, resolveOperand,
              memVals_empty_list]
        · cases pos <;>
            simp [membNF, hys, nfSat, polarBool, resolveOperand]
      | userField p =>
        simp only [compileMembKnown, cvalue] at h
        obtain rfl := Option.some.inj h
        cases hb : memVals (lookupField u p) (some (Value.list ys)) <;>
          cases pos <;>
          simp [boolNF, nfSat, polarBool, resolveOperand, hb]
      | lit v =>
        simp only [compileMembKnown, cvalue] at h
        obtain rfl := Option.some.inj h
        cases hb : memVals (some v) (some (Value.list ys)) <;>
          cases pos <;>
          simp [boolNF, nfSat, polarBool, resolveOperand, hb]
    | scalar s =>
      cases x with
      | docField p =>
        simp only [compileMembKnown] at h
        obtain rfl := Option.some.inj h
        have hm : ∀ mv, memVals mv (some (Value.scalar s)) = false := by
          intro mv
          cases mv with
          | none => rfl
          | some v => cases v <;> rfl
        cases pos <;> simp [boolNF, nfSat, polarBool, resolveOperand, hm]
      | userField p =>
        simp only [compileMembKnown, cvalue] at h
        obtain rfl := Option.some.inj h
        cases hb : memVals (lookupField u p) (some (Value.scalar s)) <;>
          cases pos <;>
          simp [boolNF, nfSat, polarBool, resolveOperand, hb]
      | lit v =>
        simp only [compileMembKnown, cvalue] at h
        obtain rfl := Option.some.inj h
        cases hb : memVals (some v) (some (Value.scalar s)) <;>
          cases pos <;>
          simp [boolNF, nfSat, polarBool, resolveOperand, hb]
  | none =>
    cases x with
    | docField p =>
      simp only [compileMembKnown] at h
      obtain rfl := Option.some.inj h
      have hm : ∀ mv : Option Value, memVals mv none = false := by
        intro mv
        cases mv with
        | none => rfl
        | some v => cases v <;> rfl
      cases pos <;> simp [boolNF, nfSat, polarBool, resolveOperand, hm]
    | userField p =>
      simp only [compileMembKnown, cvalue] at h
      obtain rfl := Option.some.inj h
      cases hb : memVals (lookupField u p) none <;>
        cases pos <;>
        simp [boolNF, nfSat, polarBool, resolveOperand, hb]
    | lit v =>
      simp only [compileMembKnown, cvalue] at h
      obtain rfl := Option.some.inj h
      cases hb : memVals (some v) none <;>
        cases pos <;>
        simp [boolNF, nfSat, polarBool, resolveOperand, hb]

/-- The compiled membership has the engine's semantics. -/
theorem compileMemb_sat (u d : Obj) (pos : Bool) (x xs : Operand) (f : NFilter)
    (h : compileMemb u pos x xs = some f) :
    nfSat d f = polarBool pos (memVals (resolveOperand u d x) (resolveOperand u d xs)) := by
  cases xs with
  | docField q =>
    cases x with
    | docField p => simp [compileMemb] at h
    | userField p =>
      simp only [compileMemb, cvalue] at h
      cases hv : lookupField u p with
      | none =>
        rw [hv] at h
        obtain rfl := Option.some.inj h
        cases pos <;>
          simp [boolNF, nfSat, polarBool, resolveOperand, hv, memVals_none_left]
      | some v =>
        cases v with
        | scalar s =>
          rw [hv] at h
          obtain rfl := Option.some.inj h
          cases pos <;>
            simp [containsNF, nfSat, polarBool, resolveOperand, hv]
        | list ys =>
          rw [hv] at h
          obtain rfl := Option.some.inj h
          have hm : ∀ mv, memVals (some (Value.list ys)) mv = false := by
            intro mv
            cases mv with
            | none => rfl
            | some w => cases w <;> rfl
          cases pos <;>
            simp [boolNF, nfSat, polarBool, resolveOperand, hv, hm]
    | lit v =>
      simp only [compileMemb, cvalue] at h
      cases v with
      | scalar s =>
        obtain rfl := Option.some.inj h
        cases pos <;>
          simp [containsNF, nfSat, polarBool, resolveOperand]
      | list ys =>
        obtain rfl := Option.some.inj h
        have hm : ∀ mv, memVals (some (Value.list ys)) mv = false := by
          intro mv
          cases mv with
          | none => rfl
          | some w => cases w <;> rfl
        cases pos <;>
          simp [boolNF, nfSat, polarBool, resolveOperand, hm]
  | userField q =>
    simp only [compileMemb, cvalue] at h
    have hres : resolveOperand u d (.userField q) = lookupField u q := rfl
    rw [hres]
    exact compileMembKnown_sat u d pos x (lookupField u q) f h
  | lit w =>
    simp only [compileMemb, cvalue] at h
    have hres : resolveOperand u d (.lit w) = some w := rfl
    rw [hres]
    exact compileMembKnown_sat u d pos x (some w) f h

/-- The compiled existence check has the engine's semantics. -/
theorem compileExists_sat (u d : Obj) (pos : Bool) (o : Operand) (f : NFilter)
    (h : compileExists u pos o = some f) :
    nfSat d f = polarBool pos (existsVal (resolveOperand u d o)) := by
  cases o with
  | docField p =>
    simp only [compileExists] at h
    obtain rfl := Option.some.inj h
    cases pos <;> simp [nfSat, polarBool, resolveOperand]
  | userField p =>
    simp only [compileExists, cvalue] at h
    obtain rfl := Option.some.inj h
    cases hb : existsVal (lookupField u p) <;>
      cases pos <;>
      simp [boolNF, nfSat, polarBool, resolveOperand, hb]
  | lit v =>
    simp only [compileExists, cvalue] at h
    obtain rfl := Option.some.inj h
    cases hb : existsVal (some v) <;>
      cases pos <;>
      simp [boolNF, nfSat, polarBool, resolveOperand, hb]

/-- The compiled condition has the engine's semantics at every
document. -/
theorem compileCond_sat (u : Obj) (c : Cond) (f : NFilter)
    (h : compileCond u c = some f) (d : Obj) :
    nfSat d f = evalCond u d c := by
  induction c generalizing f with
  | cmp op l r =>
    simp only [compileCond] at h
    rw [compileCmp_sat u d op l r f h]
    rfl
  | isIn x xs =>
    simp only [compileCond] at h
    rw [compileMemb_sat u d true x xs f h]
    rfl
  | notIn x xs =>
    simp only [compileCond] at h
    rw [compileMemb_sat u d false x xs f h]
    rfl
  | fieldExists o =>
    simp only [compileCond] at h
    rw [compileExists_sat u d true o f h]
    rfl
  | fieldAbsent o =>
    simp only [compileCond] at h
    rw [compileExists_sat u d false o f h]
    rfl
  | cand a b iha ihb =>
    simp only [compileCond] at h
    cases ha : compileCond u a with
    | none => rw [ha] at h; simp at h
    | some fa =>
      cases hb : compileCond u b with
      | none => rw [ha, hb] at h; simp at h
      | some fb =>
        rw [ha, hb] at h
        obtain rfl := Option.some.inj h
        simp [nfSat, evalCond, iha fa ha, ihb fb hb]
  | cor a b iha ihb =>
    simp only [compileCond] at h
    cases ha : compileCond u a with
    | none => rw [ha] at h; simp at h
    | some fa =>
      cases hb : compileCond u b with
      | none => rw [ha, hb] at h; simp at h
      | some fb =>
        rw [ha, hb] at h
        obtain rfl := Option.some.inj h
        simp [nfSat, evalCond, iha fa ha, ihb fb hb]

/-- The compiled match gate has the engine's semantics. -/
theorem matchNF_sat (d : Obj) (kvs : List (String × Value)) :
    nfSat d (matchNF kvs)
      = kvs.all (fun kv => eqVals (lookupField d kv.1) (some kv.2)) := by
  induction kvs with
  | nil => rfl
  | cons kv kvs ih => simp [matchNF, nfSat, ih]

/-- The compiled condition list has the engine's AND semantics. -/
theorem condsNF_sat (u d : Obj) (cs : List Cond) (g : NFilter)
    (h : condsNF u cs = some g) : nfSat d g = cs.all (evalCond u d) := by
  induction cs generalizing g with
  | nil =>
    simp only [condsNF] at h
    obtain rfl := Option.some.inj h
    rfl
  | cons c cs ih =>
    simp only [condsNF] at h
    cases hc : compileCond u c with
    | none => rw [hc] at h; simp at h
    | some f =>
      cases hcs : condsNF u cs with
      | none => rw [hc, hcs] at h; simp at h
      | some g₀ =>
        rw [hc, hcs] at h
        obtain rfl := Option.some.inj h
        simp [nfSat, compileCond_sat u c f hc d, ih g₀ hcs]

/-- The compiled rule has the engine's per-rule semantics. -/
theorem compileRule_sat (u d : Obj) (r : Rule) (f : NFilter)
    (h : compileRule u r = some f) : nfSat d f = ruleAllows u d r := by
  unfold compileRule at h
  by_cases hid : identityOk r.allow u
  · rw [if_pos hid] at h
    cases hcs : condsNF u r.allow.conditions with
    | none => rw [hcs] at h; simp at h
    | some g =>
      rw [hcs] at h
      obtain rfl := Option.some.inj h
      have hmg : nfSat d (matchNF (r.matchClause.getD []))
          = matchGateOk r.matchClause d := by
        cases hm : r.matchClause with
        | none => rfl
        | some kvs => rw [matchNF_sat]; rfl
      simp [nfSat, hmg, condsNF_sat u d _ g hcs, ruleAllows, hid]
  · rw [if_neg hid] at h
    obtain rfl := Option.some.inj h
    have : identityOk r.allow u = false := by
      cases hb : identityOk r.allow u
      · rfl
      · exact absurd hb hid
    simp [nfSat, ruleAllows, this]

/-- The compiled rule disjunction has the engine's first-match
semantics. -/
theorem compileRules_sat (u d : Obj) (rs : List Rule) (f : NFilter)
    (h : compileRules u rs = some f) :
    nfSat d f = rs.any (ruleAllows u d) := by
  induction rs generalizing f with
  | nil =>
    simp only [compileRules] at h
    obtain rfl := Option.some.inj h
    rfl
  | cons r rs ih =>
    simp only [compileRules] at h
    cases hr : compileRule u r with
    | none => rw [hr] at h; simp at h
    | some g =>
      cases hrs : compileRules u rs with
      | none => rw [hr, hrs] at h; simp at h
      | some g₀ =>
        rw [hr, hrs] at h
        obtain rfl := Option.some.inj h
        simp [nfSat, compileRule_sat u d r g hr, ih g₀ hrs]

/-- The compiled policy admits a document exactly when the evaluation
engine allows it. -/
theorem compilePolicy_sat (p : Policy) (u : Obj) (f : NFilter)
    (h : compilePolicy p u = some f) (d : Obj) :
    nfSat d f = p.evaluate u d := by
  unfold compilePolicy at h
  rw [Policy.evaluate, evalRules_eq_any]
  by_cases hd : (p.default == Decision.allow) = true
  · rw [if_pos hd] at h
    obtain rfl := Option.some.inj h
    simp [nfSat, hd]
  · have hd' : (p.default == Decision.allow) = false := by
      cases hb : (p.default == Decision.allow)
      · rfl
      · exact absurd hb hd
    rw [hd'] at h
    simp only [Bool.false_eq_true, if_false] at h
    rw [compileRules_sat u d p.rules f h, hd']
    simp

/-- The structured must/should/must_not rendering preserves
satisfaction. -/
theorem toQdrantNF_sat (d : Obj) (nf : NFilter) :
    qfilterSat d (toQdrantNF nf) = nfSat d nf := by
  induction nf with
  | top => rfl
  | bot => rfl
  | feq p v => simp [toQdrantNF, qMust, qfilterSat, qlistAll, qlistAny, qcondSat, nfSat]
  | fne p v => simp [toQdrantNF, qMustNot, qfilterSat, qlistAll, qlistAny, qcondSat, nfSat]
  | fcmp op p s => simp [toQdrantNF, qMust, qfilterSat, qlistAll, qlistAny, qcondSat, nfSat]
  | anyOf p vs => simp [toQdrantNF, qMust, qfilterSat, qlistAll, qlistAny, qcondSat, nfSat]
  | noneOf p vs => simp [toQdrantNF, qMustNot, qfilterSat, qlistAll, qlistAny, qcondSat, nfSat]
  | contains p s => simp [toQdrantNF, qMust, qfilterSat, qlistAll, qlistAny, qcondSat, nfSat]
  | notContains p s => simp [toQdrantNF, qMustNot, qfilterSat, qlistAll, qlistAny, qcondSat, nfSat]
  | present p => simp [toQdrantNF, qMustNot, qfilterSat, qlistAll, qlistAny, qcondSat, nfSat]
  | absent p => simp [toQdrantNF, qMust, qfilterSat, qlistAll, qlistAny, qcondSat, nfSat]
  | conj a b iha ihb =>
    simp [toQdrantNF, qfilterSat, qlistAll, qlistAny, qcondSat, nfSat, iha, ihb]
  | disj a b iha ihb =>
    simp [toQdrantNF, qfilterSat, qlistAll, qlistAny, qcondSat, nfSat, iha, ihb]

/-- The operator-tree rendering preserves satisfaction. -/
theorem toWeaviateNF_sat (d : Obj) (nf : NFilter) :
    wfSat d (toWeaviateNF nf) = nfSat d nf := by
  induction nf with
  | conj a b iha ihb => simp [toWeaviateNF, wfSat, nfSat, iha, ihb]
  | disj a b iha ihb => simp [toWeaviateNF, wfSat, nfSat, iha, ihb]
  | present p =>
    simp only [toWeaviateNF, wfSat, nfSat]
    cases existsVal (lookupField d p) <;> rfl
  | absent p =>
    simp only [toWeaviateNF, wfSat, nfSat]
    cases existsVal (lookupField d p) <;> rfl
  | _ => rfl

/-- The dollar-operator metadata rendering preserves satisfaction
(Pinecone). -/
theorem toPineconeNF_sat (d : Obj) (nf : NFilter) :
    pineconeSat d (toPineconeNF nf) = nfSat d nf := by
  induction nf with
  | conj a b iha ihb => simp [toPineconeNF, pineconeSat, nfSat, iha, ihb]
  | disj a b iha ihb => simp [toPineconeNF, pineconeSat, nfSat, iha, ihb]
  | present p =>
    simp only [toPineconeNF, pineconeSat, nfSat]
    cases existsVal (lookupField d p) <;> rfl
  | absent p =>
    simp only [toPineconeNF, pineconeSat, nfSat]
    cases existsVal (lookupField d p) <;> rfl
  | _ => rfl

/-- The dollar-operator metadata rendering preserves satisfaction
(ChromaDB). -/
theorem toChromaNF_sat (d : Obj) (nf : NFilter) :
    chromaSat d (toChromaNF nf) = nfSat d nf := by
  induction nf with
  | conj a b iha ihb => simp [toChromaNF, chromaSat, nfSat, iha, ihb]
  | disj a b iha ihb => simp [toChromaNF, chromaSat, nfSat, iha, ihb]
  | present p =>
    simp only [toChromaNF, chromaSat, nfSat]
    cases existsVal (lookupField d p) <;> rfl
  | absent p =>
    simp only [toChromaNF, chromaSat, nfSat]
    cases existsVal (lookupField d p) <;> rfl
  | _ => rfl

/-- Scalar wrapping is transparent to boolean equality. -/
theorem scalar_beq_scalar (a v : Scalar) :
    (Value.scalar a == Value.scalar v) = (a == v) := by
  cases h : (a == v) with
  | true =>
    have := eq_of_beq h
    subst this
    simp
  | false =>
    have hne : a ≠ v := ne_of_beq_false h
    have hvne : Value.scalar a ≠ Value.scalar v := by
      intro hc
      exact hne (by injection hc)
    exact beq_eq_false_iff_ne.mpr hvne

/-- Membership among scalar-wrapped parameters equals scalar
membership. -/
theorem contains_map_scalar (vs : List Scalar) (a : Scalar) :
    (vs.map Value.scalar).contains (Value.scalar a) = vs.contains a := by
  induction vs with
  | nil => rfl
  | cons v vs ih =>
    simp only [List.map_cons, List.contains_cons, ih, scalar_beq_scalar]

/-- The element right after a prefix, by position. -/
theorem getElem_after_prefix (pre : List Value) (v : Value) (post : List Value) :
    (pre ++ v :: post)[pre.length]? = some v := by
  rw [List.getElem?_append_right (Nat.le_refl _)]
  simp

/-- The parameter segment between a prefix and a suffix, by position. -/
theorem seg_extract (pre seg post : List Value) :
    ((pre ++ seg ++ post).drop pre.length).take seg.length = seg := by
  rw [List.append_assoc, List.drop_left, List.take_left]

/-- The emitted WHERE clause, placed after any parameter prefix and
before any suffix, is satisfied exactly when the intermediate filter
is. -/
theorem sqlOfNF_sat (nf : NFilter) (d : Obj) :
    ∀ pre post : List Value,
      sqlSat (pre ++ (sqlOfNF nf pre.length).2 ++ post) d
        (sqlOfNF nf pre.length).1 = nfSat d nf := by
  induction nf with
  | top => intro pre post; rfl
  | bot => intro pre post; rfl
  | feq p v =>
    intro pre post
    simp only [sqlOfNF, sqlSat, nfSat, List.append_assoc, List.singleton_append,
      getElem_after_prefix]
    rfl
  | fne p v =>
    intro pre post
    simp only [sqlOfNF, sqlSat, nfSat, List.append_assoc, List.singleton_append,
      getElem_after_prefix]
    rfl
  | fcmp op p s =>
    intro pre post
    simp only [sqlOfNF, sqlSat, nfSat, List.append_assoc, List.singleton_append,
      getElem_after_prefix]
  | anyOf p vs =>
    intro pre post
    simp only [sqlOfNF, sqlSat, nfSat]
    have hlen : vs.length = (vs.map Value.scalar).length := by simp
    rw [hlen, seg_extract]
    cases lookupField d p with
    | none => rfl
    | some w =>
      cases w with
      | scalar a => simp [memVals, contains_map_scalar]
      | list xs => rfl
  | noneOf p vs =>
    intro pre post
    simp only [sqlOfNF, sqlSat, nfSat]
    have hlen : vs.length = (vs.map Value.scalar).length := by simp
    rw [hlen, seg_extract]
    cases lookupField d p with
    | none => rfl
    | some w =>
      cases w with
      | scalar a => simp [memVals, contains_map_scalar]
      | list xs => rfl
  | contains p s =>
    intro pre post
    simp only [sqlOfNF, sqlSat, nfSat, List.append_assoc, List.singleton_append,
      getElem_after_prefix]
  | notContains p s =>
    intro pre post
    simp only [sqlOfNF, sqlSat, nfSat, List.append_assoc, List.singleton_append,
      getElem_after_prefix]
  | present p => intro pre post; rfl
  | absent p => intro pre post; rfl
  | conj a b iha ihb =>
    intro pre post
    simp only [sqlOfNF, sqlSat, nfSat]
    have ha := iha pre ((sqlOfNF b (pre.length + (sqlOfNF a pre.length).2.length)).2 ++ post)
    have hlen : pre.length + (sqlOfNF a pre.length).2.length
        = (pre ++ (sqlOfNF a pre.length).2).length := (List.length_append _ _).symm
    have hb := ihb (pre ++ (sqlOfNF a pre.length).2) post
    rw [hlen]
    rw [hlen] at ha
    simp only [List.append_assoc] at ha hb ⊢
    rw [ha, hb]
  | disj a b iha ihb =>
    intro pre post
    simp only [sqlOfNF, sqlSat, nfSat]
    have ha := iha pre ((sqlOfNF b (pre.length + (sqlOfNF a pre.length).2.length)).2 ++ post)
    have hlen : pre.length + (sqlOfNF a pre.length).2.length
        = (pre ++ (sqlOfNF a pre.length).2).length := (List.length_append _ _).symm
    have hb := ihb (pre ++ (sqlOfNF a pre.length).2) post
    rw [hlen]
    rw [hlen] at ha
    simp only [List.append_assoc] at ha hb ⊢
    rw [ha, hb]

/-- The emitted WHERE clause with its own parameter list is satisfied
exactly when the intermediate filter is. -/
theorem sqlOfNF_sat_closed (nf : NFilter) (d : Obj) :
    sqlSat (sqlOfNF nf 0).2 d (sqlOfNF nf 0).1 = nfSat d nf := by
  have h := sqlOfNF_sat nf d [] []
  simpa using h

/-- C1: for every policy, every user and each of the five backend
targets, whenever the compiler produces a native filter, a document
satisfies it (under that backend's filter semantics) iff
`evaluate(user, document)` is true — so the allowed document set is
identical across all five backends. -/
theorem cross_backend_equivalence (p : Policy) (u d : Obj) :
    (∀ f, toQdrantFilter p u = some f → qfilterSat d f = p.evaluate u d)
    ∧ (∀ e ps, toPgvectorExpr p u = some (e, ps) → sqlSat ps d e = p.evaluate u d)
    ∧ (∀ f, toWeaviateFilter p u = some f → wfSat d f = p.evaluate u d)
    ∧ (∀ f, toPineconeFilter p u = some f → pineconeSat d f = p.evaluate u d)
    ∧ (∀ f, toChromaFilter p u = some f → chromaSat d f = p.evaluate u d) := by
  refine ⟨?_, ?_, ?_, ?_, ?_⟩
  · intro f hf
    rcases Option.map_eq_some'.mp hf with ⟨nf, hnf, hfe⟩
    subst hfe
    rw [toQdrantNF_sat, compilePolicy_sat p u nf hnf d]
  · intro e ps hf
    rcases Option.map_eq_some'.mp hf with ⟨nf, hnf, hfe⟩
    have he : e = (sqlOfNF nf 0).1 := by rw [hfe]
    have hps : ps = (sqlOfNF nf 0).2 := by rw [hfe]
    subst he
    subst hps
    rw [sqlOfNF_sat_closed, compilePolicy_sat p u nf hnf d]
  · intro f hf
    rcases Option.map_eq_some'.mp hf with ⟨nf, hnf, hfe⟩
    subst hfe
    rw [toWeaviateNF_sat, compilePolicy_sat p u nf hnf d]
  · intro f hf
    rcases Option.map_eq_some'.mp hf with ⟨nf, hnf, hfe⟩
    subst hfe
    rw [toPineconeNF_sat, compilePolicy_sat p u nf hnf d]
  · intro f hf
    rcases Option.map_eq_some'.mp hf with ⟨nf, hnf, hfe⟩
    subst hfe
    rw [toChromaNF_sat, compilePolicy_sat p u nf hnf d]

/-- Witness for C1: in the cross-backend scenario, all five compiled
filters agree with the engine on a concrete allowed document. -/
theorem cross_backend_equivalence_witness :
    qfilterSat engDoc c1Qdrant = Policy.evaluate crossPolicy engUser engDoc
    ∧ sqlSat c1Params engDoc c1Sql = Policy.evaluate crossPolicy engUser engDoc
    ∧ wfSat engDoc c1Weaviate = Policy.evaluate crossPolicy engUser engDoc
    ∧ pineconeSat engDoc c1Pinecone = Policy.evaluate crossPolicy engUser engDoc
    ∧ chromaSat engDoc c1Chroma = Policy.evaluate crossPolicy engUser engDoc
    ∧ Policy.evaluate crossPolicy engUser engDoc = true :=
  ⟨(cross_backend_equivalence crossPolicy engUser engDoc).1 c1Qdrant (by rfl),
   (cross_backend_equivalence crossPolicy engUser engDoc).2.1 c1Sql c1Params (by rfl),
   (cross_backend_equivalence crossPolicy engUser engDoc).2.2.1 c1Weaviate (by rfl),
   (cross_backend_equivalence crossPolicy engUser engDoc).2.2.2.1 c1Pinecone (by rfl),
   (cross_backend_equivalence crossPolicy engUser engDoc).2.2.2.2 c1Chroma (by rfl),
   by decide⟩

/-- Emitted WHERE clauses never contain an inline-literal node. -/
theorem sqlOfNF_parameterized (nf : NFilter) (i : Nat) :
    sqlParameterized (sqlOfNF nf i).1 = true := by
  induction nf generalizing i with
  | conj a b iha ihb => simp [sqlOfNF, sqlParameterized, iha, ihb]
  | disj a b iha ihb => simp [sqlOfNF, sqlParameterized, iha, ihb]
  | _ => rfl

/-- Placeholder bounds are monotone. -/
theorem sqlIdxLt_mono (e : SqlExpr) (n m : Nat) (hnm : n ≤ m)
    (h : sqlIdxLt e n = true) : sqlIdxLt e m = true := by
  induction e with
  | cmpParam col op i => simp only [sqlIdxLt, decide_eq_true_eq] at h ⊢; omega
  | inParams col s l => simp only [sqlIdxLt, decide_eq_true_eq] at h ⊢; omega
  | notInParams col s l => simp only [sqlIdxLt, decide_eq_true_eq] at h ⊢; omega
  | anyParam col i => simp only [sqlIdxLt, decide_eq_true_eq] at h ⊢; omega
  | snot e ih => simp only [sqlIdxLt] at h ⊢; exact ih h
  | sand a b iha ihb =>
    simp only [sqlIdxLt, Bool.and_eq_true] at h ⊢
    exact ⟨iha h.1, ihb h.2⟩
  | sor a b iha ihb =>
    simp only [sqlIdxLt, Bool.and_eq_true] at h ⊢
    exact ⟨iha h.1, ihb h.2⟩
  | _ => rfl

/-- Every placeholder of the emitted WHERE clause points into the
parameter segment the compiler appends. -/
theorem sqlOfNF_idx (nf : NFilter) (i : Nat) :
    sqlIdxLt (sqlOfNF nf i).1 (i + (sqlOfNF nf i).2.length) = true := by
  induction nf generalizing i with
  | top => rfl
  | bot => rfl
  | feq p v => simp [sqlOfNF, sqlIdxLt]
  | fne p v => simp [sqlOfNF, sqlIdxLt]
  | fcmp op p s => simp [sqlOfNF, sqlIdxLt]
  | anyOf p vs => simp [sqlOfNF, sqlIdxLt]
  | noneOf p vs => simp [sqlOfNF, sqlIdxLt]
  | contains p s => simp [sqlOfNF, sqlIdxLt]
  | notContains p s => simp [sqlOfNF, sqlIdxLt]
  | present p => rfl
  | absent p => rfl
  | conj a b iha ihb =>
    simp only [sqlOfNF, sqlIdxLt, Bool.and_eq_true, List.length_append]
    constructor
    · exact sqlIdxLt_mono _ _ _ (by omega) (iha i)
    · have := ihb (i + (sqlOfNF a i).2.length)
      exact sqlIdxLt_mono _ _ _ (by omega) this
  | disj a b iha ihb =>
    simp only [sqlOfNF, sqlIdxLt, Bool.and_eq_true, List.length_append]
    constructor
    · exact sqlIdxLt_mono _ _ _ (by omega) (iha i)
    · have := ihb (i + (sqlOfNF a i).2.length)
      exact sqlIdxLt_mono _ _ _ (by omega) this

/-- C8: the SQL-targeting backend returns a WHERE clause plus an ordered
parameter list; the clause contains no inline literal (every literal
travels through the parameter list) and every placeholder points inside
that list; the rendered text is the rendering of that fully
parameterized clause. -/
theorem sql_fully_parameterized (p : Policy) (u : Obj) (e : SqlExpr)
    (ps : List Value) (h : toPgvectorExpr p u = some (e, ps)) :
    sqlParameterized e = true
    ∧ sqlIdxLt e ps.length = true
    ∧ toPgvectorFilter p u = some (renderSql e, ps) := by
  rcases Option.map_eq_some'.mp h with ⟨nf, hnf, hfe⟩
  have he : e = (sqlOfNF nf 0).1 := by rw [hfe]
  have hps : ps = (sqlOfNF nf 0).2 := by rw [hfe]
  subst he
  subst hps
  refine ⟨sqlOfNF_parameterized nf 0, ?_, ?_⟩
  · have := sqlOfNF_idx nf 0
    simpa using this
  · simp [toPgvectorFilter, h]

/-- Witness for C8: the cross-backend scenario's WHERE clause is fully
parameterized with in-range placeholders. -/
theorem sql_fully_parameterized_witness :
    sqlParameterized c1Sql = true ∧ sqlIdxLt c1Sql c1Params.length = true :=
  ⟨(sql_fully_parameterized crossPolicy engUser c1Sql c1Params (by rfl)).1,
   (sql_fully_parameterized crossPolicy engUser c1Sql c1Params (by rfl)).2.1⟩

end RagGuard
